/-
Verification of the ltcache cache engine (src/src/cache.spec.ts, `cache` factory)
against its natural-language specification.

The engine is embedded shallowly:
  * the three JS `Map`s (`cache`, `clearTimeouts`, `pendingGets`) become
    association lists in insertion order (JS `Map` iterates in insertion order
    and `set` of an existing key updates in place);
  * `setTimeout` handles become numeric ids allocated from a counter; a timer
    is a record with its key, delay and an `active` flag; `clearTimeout`
    deactivates the timer with the given id;
  * the synchronous prefix of `get` (up to its first suspension point) is one
    atomic step `getPhase1`; the settlement of a loader promise is the step
    `settleFill`; promises are identified by fill ids allocated from a counter
    and a caller's eventual result is read off its attachment to a fill;
  * values are a JS-like inductive type; `JSON.stringify` is modelled by
    `jsonStringifyE`, which throws (returns `Except.error`) on BigInt values
    and yields no string (`none`) on `undefined`, as the builtin does;
    `new Blob([x]).size` is the UTF-8 byte length of the string conversion,
    with `undefined` converting to the 9-byte text "undefined".
-/
import Mathlib

namespace Ltcache

/-! ### JS-like values -/

/-- A JS value storable in the cache. Nested structures carry lists; function
and symbol values (which `JSON.stringify` also turns into `undefined`) are
subsumed by `vUndefined` for size purposes. -/
inductive Value where
  | vUndefined
  | vNull
  | vBool (b : Bool)
  | vNum (n : Int)
  | vStr (s : String)
  | vBigInt (n : Int)
  | vArr (xs : List Value)
  | vObj (fs : List (String × Value))
deriving Repr

/-- Escape a string for inclusion in a JSON literal (quote and backslash;
control characters are not used by the development). -/
def jsonEscape (s : String) : String :=
  s.data.foldl (fun acc c =>
    acc ++ (if c = '"' then "\\\"" else if c = '\\' then "\\\\" else String.singleton c)) ""

mutual

/-- Model of `JSON.stringify`: `.error ()` when serialization throws (BigInt),
`.ok none` when it yields no string (top-level `undefined`). -/
def jsonStringifyE : Value → Except Unit (Option String)
  | .vUndefined => .ok none
  | .vNull => .ok (some "null")
  | .vBool b => .ok (some (if b then "true" else "false"))
  | .vNum n => .ok (some (toString n))
  | .vStr s => .ok (some ("\"" ++ jsonEscape s ++ "\""))
  | .vBigInt _ => .error ()
  | .vArr xs =>
    match jsonArrE xs with
    | .error e => .error e
    | .ok parts => .ok (some ("[" ++ String.intercalate "," parts ++ "]"))
  | .vObj fs =>
    match jsonObjE fs with
    | .error e => .error e
    | .ok parts => .ok (some ("\x7b" ++ String.intercalate "," parts ++ "\x7d"))

/-- Array elements: an element serializing to no string renders as "null". -/
def jsonArrE : List Value → Except Unit (List String)
  | [] => .ok []
  | v :: vs =>
    match jsonStringifyE v with
    | .error e => .error e
    | .ok jv =>
      match jsonArrE vs with
      | .error e => .error e
      | .ok rest => .ok ((match jv with | some s => s | none => "null") :: rest)

/-- Object fields: a field whose value serializes to no string is skipped. -/
def jsonObjE : List (String × Value) → Except Unit (List String)
  | [] => .ok []
  | (k, v) :: fs =>
    match jsonStringifyE v with
    | .error e => .error e
    | .ok jv =>
      match jsonObjE fs with
      | .error e => .error e
      | .ok rest =>
        match jv with
        | some s => .ok (("\"" ++ jsonEscape k ++ "\":" ++ s) :: rest)
        | none => .ok rest

end

/-- `new Blob([s]).size`: the UTF-8 byte length of `s`. -/
def blobSize (s : String) : Nat :=
  s.data.foldl (fun n c => n + c.utf8Size) 0

/-- The string a `Blob` part is built from: `JSON.stringify`'s result, with
the `undefined` result converting to the text "undefined". -/
def stringOrUndef : Option String → String
  | some s => s
  | none => "undefined"

/-! ### Association lists modelling JS `Map` -/

/-- `Map.has`. -/
def alHas (l : List (String × α)) (k : String) : Bool :=
  l.any (fun kv => kv.1 == k)

/-- `Map.get` (`none` = `undefined`). -/
def alGet (l : List (String × α)) (k : String) : Option α :=
  (l.find? (fun kv => kv.1 == k)).map (·.2)

/-- `Map.set`: update in place if present, append otherwise. -/
def alSet (l : List (String × α)) (k : String) (v : α) : List (String × α) :=
  if alHas l k then l.map (fun kv => if kv.1 == k then (k, v) else kv)
  else l ++ [(k, v)]

/-- `Map.delete`. -/
def alDelete (l : List (String × α)) (k : String) : List (String × α) :=
  l.filter (fun kv => !(kv.1 == k))

/-! ### Engine state -/

/-- One scheduled `setTimeout` callback: the key it will delete, its delay in
milliseconds, and whether it is still scheduled (`clearTimeout` and firing
both make it inactive). -/
structure Timer where
  key : String
  delayMs : Int
  active : Bool
deriving Repr, DecidableEq

/-- The closed-over state of one `cache()` instance.  `timers` records every
timer ever allocated, keyed by its handle id; `nextTimer` and `nextFill`
allocate fresh handle/promise ids. -/
structure State where
  cache : List (String × Value)
  clearTimeouts : List (String × Nat)
  timers : List (Nat × Timer)
  pendingGets : List (String × Nat)
  nextTimer : Nat
  nextFill : Nat
  hits : Nat
  misses : Nat
deriving Repr

/-- The state `cache()` starts from. -/
def initState : State :=
  { cache := [], clearTimeouts := [], timers := [], pendingGets := [],
    nextTimer := 0, nextFill := 0, hits := 0, misses := 0 }

/-- `clearTimeout(handle)`: deactivate the timer with id `tid`. -/
def cancelTimer (ts : List (Nat × Timer)) (tid : Nat) : List (Nat × Timer) :=
  ts.map (fun q => if q.1 == tid then (q.1, { q.2 with active := false }) else q)

/-- The truthiness-and-sign test `lifetimeInSeconds && lifetimeInSeconds > 0`
(`none` models an omitted argument). -/
def posLifetime : Option Int → Bool
  | some l => decide (0 < l)
  | none => false

/-- `set(key, value, lifetimeInSeconds?)`: store the value, cancel the timer
whose handle is in `clearTimeouts` (if any), and schedule a fresh timer only
for a truthy positive lifetime. -/
def setOp (s : State) (k : String) (v : Value) (t : Option Int) : State :=
  let cache := alSet s.cache k v
  let timers :=
    match alGet s.clearTimeouts k with
    | some tid => cancelTimer s.timers tid
    | none => s.timers
  match t with
  | some l =>
    if 0 < l then
      { s with cache := cache,
               timers := timers ++ [(s.nextTimer, ⟨k, l * 1000, true⟩)],
               clearTimeouts := alSet s.clearTimeouts k s.nextTimer,
               nextTimer := s.nextTimer + 1 }
    else { s with cache := cache, timers := timers }
  | none => { s with cache := cache, timers := timers }

/-- What the synchronous prefix of one `get` call does for its caller. -/
inductive GetOutcome where
  | hit (v : Value)
  | missNoLoader (v : Value)
  | joined (fid : Nat)
  | initiated (fid : Nat)
deriving Repr

/-- The synchronous prefix of `get(key, fn?, lifetimeInSeconds?)`: hit test and
counter bump, then (on a miss with a loader) either join the pending promise
for the key or register a fresh one and invoke the loader.  `hasLoader`
models `typeof fn === 'function'`. -/
def getPhase1 (s : State) (k : String) (hasLoader : Bool) : State × GetOutcome :=
  if alHas s.cache k then
    ({ s with hits := s.hits + 1 }, .hit ((alGet s.cache k).getD .vUndefined))
  else
    let s1 : State := { s with misses := s.misses + 1 }
    if hasLoader then
      match alGet s1.pendingGets k with
      | some fid => (s1, .joined fid)
      | none =>
        ({ s1 with pendingGets := alSet s1.pendingGets k s1.nextFill,
                   nextFill := s1.nextFill + 1 },
         .initiated s1.nextFill)
    else
      (s1, .missNoLoader ((alGet s1.cache k).getD .vUndefined))

/-- The value a caller's promise resolves to, given the resolution of each
fill promise: joined and initiating callers both return the fill's promise. -/
def resolveOutcome (fres : Nat → Except String Value) : GetOutcome → Except String Value
  | .hit v => .ok v
  | .missNoLoader v => .ok v
  | .joined fid => fres fid
  | .initiated fid => fres fid

/-- `n` back-to-back `get(k, loader)` synchronous prefixes, none of the
loaders having settled in between. -/
def runGets (s : State) (k : String) : Nat → State × List GetOutcome
  | 0 => (s, [])
  | n + 1 =>
    let p := getPhase1 s k true
    let r := runGets p.1 k n
    (r.1, p.2 :: r.2)

/-- Settlement of the initiator's promise for `key`: on success run `set` with
the initiator's lifetime, and in both cases (`finally`) delete the pending
entry for the key. -/
def settleFill (s : State) (k : String) (res : Except String Value) (t : Option Int) : State :=
  match res with
  | .ok v =>
    let s1 := setOp s k v t
    { s1 with pendingGets := alDelete s1.pendingGets k }
  | .error _ => { s with pendingGets := alDelete s.pendingGets k }

/-- `remove(key)` with a literal key: delete the entry and the pending fill;
timers are not touched. -/
def removeLit (s : State) (k : String) : State :=
  { s with cache := alDelete s.cache k,
           pendingGets := alDelete s.pendingGets k }

/-- `remove(pattern)`: for every currently-stored key matching the pattern,
delete the entry and the pending fill; timers are not touched.  `p` models
`pattern.test`. -/
def removePat (s : State) (p : String → Bool) : State :=
  { s with cache := s.cache.filter (fun kv => !(p kv.1)),
           pendingGets := s.pendingGets.filter (fun kv => !(p kv.1 && alHas s.cache kv.1)) }

/-- `reset()`: clear entries and pending fills and zero the counters; the
timer table is not touched. -/
def resetOp (s : State) : State :=
  { s with cache := [], pendingGets := [], hits := 0, misses := 0 }

/-- An expiration timer firing: if the timer with id `tid` is still active,
its callback deletes the key's entry and its `clearTimeouts` record, and the
one-shot timer is spent. -/
def timerFire (s : State) (tid : Nat) : State :=
  match s.timers.find? (fun q => q.1 == tid && q.2.active) with
  | some q =>
    { s with cache := alDelete s.cache q.2.key,
             clearTimeouts := alDelete s.clearTimeouts q.2.key,
             timers := cancelTimer s.timers tid }
  | none => s

/-! ### Reporting -/

/-- Per-entry size accumulation of `getSizeKb`'s loop, in iteration order; the
first serialization failure propagates. -/
def sizeSum : List (String × Value) → Except Unit Nat
  | [] => .ok 0
  | (k, v) :: rest =>
    match jsonStringifyE v with
    | .error e => .error e
    | .ok jv =>
      match sizeSum rest with
      | .error e => .error e
      | .ok n => .ok (blobSize k + blobSize (stringOrUndef jv) + n)

/-- `getSizeKb()`: total byte estimate, then `Math.round(total / 1024)`
(round half up, i.e. `(total + 512) / 1024` in natural division). -/
def getSizeKbE (s : State) : Except Unit Nat :=
  match sizeSum s.cache with
  | .error e => .error e
  | .ok total => .ok ((total + 512) / 1024)

/-- `hitRate` as computed by `report()`: the percentage, then
`Math.round(hitRate * 100) / 100`. -/
def hitRateOf (hits misses : Nat) : ℚ :=
  let totalRequests := hits + misses
  let hitRate : ℚ := if totalRequests > 0 then ((hits : ℚ) / (totalRequests : ℚ)) * 100 else 0
  ((round (hitRate * 100) : ℤ) : ℚ) / 100

/-- The record `report()` returns. -/
structure Report where
  numItems : Nat
  hitRate : ℚ
  sizeKb : Nat
deriving Repr, DecidableEq

/-- `report()`: throws exactly when `getSizeKb()` throws. -/
def reportOp (s : State) : Except Unit Report :=
  match getSizeKbE s with
  | .error e => .error e
  | .ok sz => .ok { numItems := s.cache.length, hitRate := hitRateOf s.hits s.misses, sizeKb := sz }

/-! ### Derived notions used by the claims -/

/-- The timers for key `k` that are still scheduled. -/
def activeTimersFor (s : State) (k : String) : List (Nat × Timer) :=
  s.timers.filter (fun q => q.2.active && q.2.key == k)

/-- Whether some timer for `k` is still scheduled to fire. -/
def hasActiveTimer (s : State) (k : String) : Bool :=
  s.timers.any (fun q => q.2.active && q.2.key == k)

/-- The handle-table invariant of reachable states: every still-active timer's
handle is the one recorded for its key in `clearTimeouts` (so `set`'s
`clearTimeout(clearTimeouts.get(key))` cancels precisely the live timer). -/
def timerInvB (s : State) : Bool :=
  s.timers.all (fun q => !q.2.active || (alGet s.clearTimeouts q.2.key == some q.1))

/-- The timers-after-cancellation value shared by all branches of `setOp`. -/
def cancelledTimers (s : State) (k : String) : List (Nat × Timer) :=
  match alGet s.clearTimeouts k with
  | some tid => cancelTimer s.timers tid
  | none => s.timers

/-- Recognizer for the outcome in which a caller invokes its own loader. -/
def isInitiated : GetOutcome → Bool
  | .initiated _ => true
  | _ => false

/-- The serialized textual representation of a value, for values whose
serialization does not throw (spec wording: `undefined` serializes to the
text "undefined"). -/
def serializedRep (v : Value) : String :=
  match jsonStringifyE v with
  | .ok jv => stringOrUndef jv
  | .error _ => "undefined"

/-- Modelled from the spec wording for `sizeKb`: the sum, over every stored
entry, of the byte length of the key plus the byte length of the value's
serialized textual representation. -/
def specSizeBytes (l : List (String × Value)) : Nat :=
  (l.map (fun kv => blobSize kv.1 + blobSize (serializedRep kv.2))).sum

/-- Modelled from the spec wording for `hitRate`:
`hits / (hits + misses) * 100`, rounded to two decimal places, and exactly 0
when no requests have been made. -/
def specHitRate (h m : Nat) : ℚ :=
  if h + m > 0 then ((round (((h : ℚ) / ((h : ℚ) + (m : ℚ))) * 100 * 100) : ℤ) : ℚ) / 100
  else 0

/-- A state with a fill episode in flight for key "k": the state right after
an initiating `get("k", loader)` runs its synchronous prefix on a fresh
instance. -/
def pendingExample : State := (getPhase1 initState "k" true).1

/-- Two stored entries with distinct key shapes, for pattern-removal checks. -/
def demoPatState : State :=
  setOp (setOp initState "user:1" (Value.vStr "alice") none) "config" (Value.vStr "dark") none

/-- A state holding a plain string and an `undefined`, all serializable. -/
def demoSizeState : State :=
  setOp (setOp initState "a" (Value.vStr "x") none) "bb" Value.vUndefined none

/-- A state with one stored entry under key "a". -/
def demoHitState : State := setOp initState "a" (Value.vNum 7) none

/-- A state whose counters read one hit and two misses. -/
def demoCounterState : State := { initState with hits := 1, misses := 2 }

/-! ### Association-list lemmas -/

theorem alGet_none_of_not_has (l : List (String × α)) (k : String)
    (h : alHas l k = false) : alGet l k = none := by
  unfold alGet
  unfold alHas at h
  induction l with
  | nil => simp [List.find?]
  | cons hd tl ih =>
    simp only [List.any_cons, Bool.or_eq_false_iff] at h
    rw [List.find?_cons_of_neg _ (by simp [h.1])]
    exact ih h.2

theorem alGet_nil (k : String) : alGet ([] : List (String × α)) k = none := rfl

theorem alGet_cons (hd : String × α) (tl : List (String × α)) (k : String) :
    alGet (hd :: tl) k = if hd.1 = k then some hd.2 else alGet tl k := by
  by_cases h : hd.1 = k
  · unfold alGet
    rw [List.find?_cons_of_pos _ (by simpa using h)]
    simp [h]
  · unfold alGet
    rw [List.find?_cons_of_neg _ (by simpa using h)]
    simp [h]

theorem alHas_nil (k : String) : alHas ([] : List (String × α)) k = false := rfl

theorem alHas_cons (hd : String × α) (tl : List (String × α)) (k : String) :
    alHas (hd :: tl) k = ((hd.1 == k) || alHas tl k) := by
  simp [alHas]

theorem alGet_append_one (l : List (String × α)) (k : String) (v : α) :
    alGet (l ++ [(k, v)]) k = ((alGet l k).orElse fun _ => some v) := by
  induction l with
  | nil => simp [alGet_cons, alGet_nil, Option.orElse]
  | cons hd tl ih =>
    rw [List.cons_append, alGet_cons, alGet_cons]
    by_cases h : hd.1 = k
    · simp [h, Option.orElse]
    · simp only [h, if_false]
      exact ih

theorem alGet_replace_self (l : List (String × α)) (k : String) (v : α)
    (h : alHas l k = true) :
    alGet (l.map (fun kv => if kv.1 == k then (k, v) else kv)) k = some v := by
  induction l with
  | nil => simp [alHas] at h
  | cons hd tl ih =>
    rw [alHas_cons] at h
    by_cases hhd : hd.1 = k
    · rw [List.map_cons, if_pos (by simpa using hhd), alGet_cons]
      simp
    · rw [List.map_cons, if_neg (by simpa using hhd), alGet_cons]
      simp only [hhd, if_false]
      refine ih ?h
      simpa [hhd] using h

theorem alGet_replace_ne (l : List (String × α)) (k k2 : String) (v : α)
    (h : k2 ≠ k) :
    alGet (l.map (fun kv => if kv.1 == k then (k, v) else kv)) k2 = alGet l k2 := by
  induction l with
  | nil => simp
  | cons hd tl ih =>
    by_cases hhd : hd.1 = k
    · rw [List.map_cons, if_pos (by simpa using hhd), alGet_cons, alGet_cons]
      have hne : ¬(k = k2) := fun he => h he.symm
      have hne2 : ¬(hd.1 = k2) := by rw [hhd]; exact hne
      simp only [hne, hne2, if_false]
      exact ih
    · rw [List.map_cons, if_neg (by simpa using hhd), alGet_cons, alGet_cons]
      by_cases h2 : hd.1 = k2
      · simp [h2]
      · simp only [h2, if_false]
        exact ih

theorem alGet_alSet_self (l : List (String × α)) (k : String) (v : α) :
    alGet (alSet l k v) k = some v := by
  unfold alSet
  by_cases h : alHas l k
  · rw [if_pos h]
    exact alGet_replace_self l k v h
  · rw [if_neg h]
    rw [alGet_append_one, alGet_none_of_not_has l k (by simpa using h)]
    rfl

theorem alGet_append_one_ne (l : List (String × α)) (k k2 : String) (v : α)
    (h : k2 ≠ k) : alGet (l ++ [(k, v)]) k2 = alGet l k2 := by
  induction l with
  | nil => simp [alGet_cons, alGet_nil, Ne.symm h]
  | cons hd tl ih =>
    rw [List.cons_append, alGet_cons, alGet_cons]
    by_cases h2 : hd.1 = k2
    · simp [h2]
    · simp only [h2, if_false]
      exact ih

theorem alGet_alSet_ne (l : List (String × α)) (k k2 : String) (v : α) (h : k2 ≠ k) :
    alGet (alSet l k v) k2 = alGet l k2 := by
  unfold alSet
  by_cases hhas : alHas l k
  · rw [if_pos hhas]
    exact alGet_replace_ne l k k2 v h
  · rw [if_neg hhas]
    exact alGet_append_one_ne l k k2 v h

theorem alHas_alSet_self (l : List (String × α)) (k : String) (v : α) :
    alHas (alSet l k v) k = true := by
  have hg := alGet_alSet_self l k v
  unfold alGet at hg
  unfold alHas
  rw [List.any_eq_true]
  rcases hfind : List.find? (fun kv => kv.1 == k) (alSet l k v) with _ | kv
  · rw [hfind] at hg
    simp at hg
  · have hp := List.find?_some hfind
    exact ⟨kv, List.mem_of_find?_eq_some hfind, hp⟩

theorem alHas_alDelete_self (l : List (String × α)) (k : String) :
    alHas (alDelete l k) k = false := by
  unfold alHas alDelete
  simp only [List.any_eq_false, beq_iff_eq]
  intro kv hmem
  rw [List.mem_filter] at hmem
  simpa using hmem.2

theorem alGet_alDelete_self (l : List (String × α)) (k : String) :
    alGet (alDelete l k) k = none :=
  alGet_none_of_not_has _ _ (alHas_alDelete_self l k)

theorem alGet_alDelete_ne (l : List (String × α)) (k k2 : String) (h : k2 ≠ k) :
    alGet (alDelete l k) k2 = alGet l k2 := by
  unfold alDelete
  induction l with
  | nil => simp
  | cons hd tl ih =>
    by_cases hhd : hd.1 = k
    · rw [List.filter_cons_of_neg (by simp [hhd]), alGet_cons]
      have hne2 : ¬(hd.1 = k2) := by rw [hhd]; exact fun he => h he.symm
      simp only [hne2, if_false]
      exact ih
    · rw [List.filter_cons_of_pos (by simp [hhd]), alGet_cons, alGet_cons]
      by_cases h2 : hd.1 = k2
      · simp [h2]
      · simp only [h2, if_false]
        exact ih

theorem alSet_length_of_not_has (l : List (String × α)) (k : String) (v : α)
    (h : alHas l k = false) : (alSet l k v).length = l.length + 1 := by
  unfold alSet
  simp [h]

/-! ### Timer lemmas -/

theorem active_filter_nil_of_none (ts : List (Nat × Timer)) (ct : List (String × Nat))
    (k : String)
    (hall : ts.all (fun q => !q.2.active || (alGet ct q.2.key == some q.1)) = true)
    (hnone : alGet ct k = none) :
    ts.filter (fun q => q.2.active && q.2.key == k) = [] := by
  rw [List.filter_eq_nil_iff]
  intro q hq
  simp only [Bool.and_eq_true, beq_iff_eq, not_and]
  intro hact hkey
  have hq2 := (List.all_eq_true.mp hall) q hq
  rw [hact, hkey] at hq2
  simp [hnone] at hq2

theorem cancel_active_filter_nil (ts : List (Nat × Timer)) (ct : List (String × Nat))
    (k : String) (tid : Nat)
    (hall : ts.all (fun q => !q.2.active || (alGet ct q.2.key == some q.1)) = true)
    (hmap : alGet ct k = some tid) :
    (cancelTimer ts tid).filter (fun q => q.2.active && q.2.key == k) = [] := by
  rw [List.filter_eq_nil_iff]
  intro q hq
  unfold cancelTimer at hq
  rw [List.mem_map] at hq
  obtain ⟨q0, hq0mem, heq⟩ := hq
  by_cases hid : q0.1 = tid
  · rw [if_pos (by simpa using hid)] at heq
    rw [← heq]
    simp
  · rw [if_neg (by simpa using hid)] at heq
    rw [← heq]
    simp only [Bool.and_eq_true, beq_iff_eq, not_and]
    intro hact hkey
    have hq2 := (List.all_eq_true.mp hall) q0 hq0mem
    rw [hact, hkey] at hq2
    simp [hmap] at hq2
    exact hid hq2.symm

theorem cancelledTimers_active_nil (s : State) (k : String) (hinv : timerInvB s = true) :
    (cancelledTimers s k).filter (fun q => q.2.active && q.2.key == k) = [] := by
  unfold timerInvB at hinv
  unfold cancelledTimers
  rcases hct : alGet s.clearTimeouts k with _ | tid
  · exact active_filter_nil_of_none _ _ _ hinv hct
  · exact cancel_active_filter_nil _ _ _ _ hinv hct

theorem setOp_cache (s : State) (k : String) (v : Value) (t : Option Int) :
    (setOp s k v t).cache = alSet s.cache k v := by
  unfold setOp
  rcases t with _ | l
  · rfl
  · by_cases h : 0 < l
    · simp [h]
    · simp [h]

theorem setOp_timers (s : State) (k : String) (v : Value) (t : Option Int) :
    (setOp s k v t).timers =
      (cancelledTimers s k ++
        (if posLifetime t then [(s.nextTimer, ⟨k, (t.getD 0) * 1000, true⟩)] else [])) := by
  unfold setOp cancelledTimers posLifetime
  rcases t with _ | l
  · simp
  · by_cases h : 0 < l
    · simp [h]
    · simp [h]

theorem setOp_nextTimer (s : State) (k : String) (v : Value) (t : Option Int) :
    (setOp s k v t).nextTimer = (if posLifetime t then s.nextTimer + 1 else s.nextTimer) := by
  unfold setOp posLifetime
  rcases t with _ | l
  · rfl
  · by_cases h : 0 < l
    · simp [h]
    · simp [h]

theorem setOp_activeTimersFor (s : State) (k : String) (v : Value) (t : Option Int)
    (hinv : timerInvB s = true) :
    activeTimersFor (setOp s k v t) k =
      (if posLifetime t then [(s.nextTimer, ⟨k, (t.getD 0) * 1000, true⟩)] else []) := by
  unfold activeTimersFor
  rw [setOp_timers, List.filter_append, cancelledTimers_active_nil s k hinv]
  by_cases h : posLifetime t
  · simp [h]
  · simp [h]

/-! ### Helper lemmas about the operations -/

theorem alHas_of_alGet_some (l : List (String × α)) (k : String) (v : α)
    (h : alGet l k = some v) : alHas l k = true := by
  unfold alGet at h
  rcases hfind : List.find? (fun kv => kv.1 == k) l with _ | kv
  · rw [hfind] at h
    simp at h
  · have hp := List.find?_some hfind
    unfold alHas
    rw [List.any_eq_true]
    exact ⟨kv, List.mem_of_find?_eq_some hfind, hp⟩

theorem getPhase1_hit_eq (s : State) (k : String) (b : Bool) (v : Value)
    (h : alGet s.cache k = some v) :
    getPhase1 s k b = ({ s with hits := s.hits + 1 }, GetOutcome.hit v) := by
  unfold getPhase1
  rw [if_pos (by rw [alHas_of_alGet_some s.cache k v h]), h]
  rfl

theorem getPhase1_join_eq (s : State) (k : String) (fid : Nat)
    (h1 : alHas s.cache k = false) (h2 : alGet s.pendingGets k = some fid) :
    getPhase1 s k true = ({ s with misses := s.misses + 1 }, GetOutcome.joined fid) := by
  unfold getPhase1
  rw [if_neg (by rw [h1]; exact Bool.false_ne_true)]
  simp only [h2]
  rw [if_pos trivial]

theorem getPhase1_initiate_eq (s : State) (k : String)
    (h1 : alHas s.cache k = false) (h2 : alHas s.pendingGets k = false) :
    getPhase1 s k true =
      ({ s with misses := s.misses + 1,
                pendingGets := alSet s.pendingGets k s.nextFill,
                nextFill := s.nextFill + 1 },
       GetOutcome.initiated s.nextFill) := by
  unfold getPhase1
  rw [if_neg (by rw [h1]; exact Bool.false_ne_true)]
  simp only [alGet_none_of_not_has s.pendingGets k h2]
  rw [if_pos trivial]

theorem getPhase1_missNoLoader_eq (s : State) (k : String)
    (h1 : alHas s.cache k = false) :
    getPhase1 s k false =
      ({ s with misses := s.misses + 1 }, GetOutcome.missNoLoader Value.vUndefined) := by
  unfold getPhase1
  rw [if_neg (by rw [h1]; exact Bool.false_ne_true)]
  simp only [Bool.false_eq_true, if_false, alGet_none_of_not_has s.cache k h1]
  rfl

theorem runGets_joined (k : String) (fid : Nat) :
    ∀ (n : Nat) (s : State), alHas s.cache k = false → alGet s.pendingGets k = some fid →
      (runGets s k n).2 = List.replicate n (GetOutcome.joined fid) := by
  intro n
  induction n with
  | zero => intro s _ _; rfl
  | succ m ih =>
    intro s h1 h2
    unfold runGets
    rw [getPhase1_join_eq s k fid h1 h2]
    simp only [List.replicate]
    rw [ih { s with misses := s.misses + 1 } h1 h2]

theorem countP_replicate_joined (n : Nat) (fid : Nat) :
    (List.replicate n (GetOutcome.joined fid)).countP isInitiated = 0 := by
  induction n with
  | zero => rfl
  | succ m ih => simp [List.replicate_succ, List.countP_cons, ih, isInitiated]

theorem sizeSum_ok (l : List (String × Value))
    (h : (l.all fun kv => (jsonStringifyE kv.2).isOk) = true) :
    sizeSum l = Except.ok (specSizeBytes l) := by
  induction l with
  | nil => rfl
  | cons hd tl ih =>
    rw [List.all_cons, Bool.and_eq_true] at h
    unfold sizeSum
    rcases hj : jsonStringifyE hd.2 with e | jv
    · rw [hj] at h
      simp [Except.isOk, Except.toBool] at h
    · rw [ih h.2]
      unfold specSizeBytes serializedRep
      simp only [List.map_cons, List.sum_cons]
      rw [hj]

theorem hitRateOf_eq_spec (h m : Nat) : hitRateOf h m = specHitRate h m := by
  unfold hitRateOf specHitRate
  dsimp only
  by_cases hpos : h + m > 0
  · rw [if_pos hpos, if_pos hpos]
    have hc : ((h + m : Nat) : ℚ) = (h : ℚ) + (m : ℚ) := by push_cast; ring
    rw [hc, mul_assoc]
  · rw [if_neg hpos, if_neg hpos]
    norm_num

theorem mem_activeTimersFor (s : State) (k : String) (q : Nat × Timer)
    (hq : q ∈ s.timers) (hact : q.2.active = true) (hkey : q.2.key = k) :
    q ∈ activeTimersFor s k := by
  unfold activeTimersFor
  rw [List.mem_filter]
  exact ⟨hq, by rw [hact, hkey]; simp⟩

theorem timerFire_of_find_none (s : State) (tid : Nat)
    (h : s.timers.find? (fun q => q.1 == tid && q.2.active) = none) :
    timerFire s tid = s := by
  unfold timerFire
  rw [h]

theorem timerFire_cache_of_find_some (s : State) (tid : Nat) (q : Nat × Timer)
    (h : s.timers.find? (fun q => q.1 == tid && q.2.active) = some q) :
    (timerFire s tid).cache = alDelete s.cache q.2.key := by
  unfold timerFire
  rw [h]

theorem alGet_isSome_of_has (l : List (String × α)) (k : String)
    (h : alHas l k = true) : (alGet l k).isSome = true := by
  unfold alHas at h
  rw [List.any_eq_true] at h
  obtain ⟨kv, hmem, hp⟩ := h
  unfold alGet
  rcases hfind : List.find? (fun kv => kv.1 == k) l with _ | kv2
  · rw [List.find?_eq_none] at hfind
    exact absurd hp (hfind kv hmem)
  · rw [hfind]
    simp

theorem alHas_false_of_alGet_none (l : List (String × α)) (k : String)
    (h : alGet l k = none) : alHas l k = false := by
  by_cases hh : alHas l k
  · have := alGet_isSome_of_has l k hh
    rw [h] at this
    cases this
  · simpa using hh

theorem alGet_filter_keep (l : List (String × α)) (f : String × α → Bool) (k : String)
    (hk : ∀ v : α, f (k, v) = true) : alGet (l.filter f) k = alGet l k := by
  induction l with
  | nil => simp
  | cons hd tl ih =>
    by_cases hhd : hd.1 = k
    · have hf : f hd = true := by
        have hv := hk hd.2
        rw [← hhd] at hv
        exact hv
      rw [List.filter_cons_of_pos hf, alGet_cons, alGet_cons, if_pos hhd, if_pos hhd]
    · by_cases hf : f hd = true
      · rw [List.filter_cons_of_pos hf, alGet_cons, alGet_cons, if_neg hhd, if_neg hhd]
        exact ih
      · rw [List.filter_cons_of_neg (by simpa using hf), alGet_cons, if_neg hhd]
        exact ih

theorem alHas_filter_drop (l : List (String × α)) (f : String × α → Bool) (k : String)
    (hk : ∀ v : α, f (k, v) = false) : alHas (l.filter f) k = false := by
  unfold alHas
  rw [List.any_eq_false]
  intro kv hmem
  rw [List.mem_filter] at hmem
  simp only [beq_iff_eq]
  intro hkey
  have hv2 : f kv = false := by
    have hv := hk kv.2
    rw [← hkey] at hv
    exact hv
  rw [hmem.2] at hv2
  cases hv2

theorem setOp_hits (s : State) (k : String) (v : Value) (t : Option Int) :
    (setOp s k v t).hits = s.hits := by
  unfold setOp
  rcases t with _ | l
  · rfl
  · by_cases h : 0 < l
    · simp [h]
    · simp [h]

theorem setOp_misses (s : State) (k : String) (v : Value) (t : Option Int) :
    (setOp s k v t).misses = s.misses := by
  unfold setOp
  rcases t with _ | l
  · rfl
  · by_cases h : 0 < l
    · simp [h]
    · simp [h]

/-! ### Claim theorems -/

/-- C1: for every key `k`, across any number of concurrent `get(k, loader)`
calls issued while no entry for `k` is stored and before any of them settles,
exactly one supplied loader is invoked (the initiator's — the first caller),
and every one of those calls resolves to the identical result produced by that
single invocation (they all return the same fill promise). -/
theorem single_flight_coalescing (s : State) (k : String) (n : Nat)
    (h1 : alHas s.cache k = false) (h2 : alHas s.pendingGets k = false) :
    (runGets s k (n + 1)).2 =
      GetOutcome.initiated s.nextFill :: List.replicate n (GetOutcome.joined s.nextFill)
    ∧ ((runGets s k (n + 1)).2.countP isInitiated) = 1
    ∧ (∀ (fres : Nat → Except String Value), ∀ o ∈ (runGets s k (n + 1)).2,
        resolveOutcome fres o = fres s.nextFill) := by
  have hshape : (runGets s k (n + 1)).2 =
      GetOutcome.initiated s.nextFill :: List.replicate n (GetOutcome.joined s.nextFill) := by
    unfold runGets
    rw [getPhase1_initiate_eq s k h1 h2]
    simp only []
    congr 1
    exact runGets_joined k s.nextFill n _ h1 (alGet_alSet_self _ _ _)
  refine ⟨hshape, ?_, ?_⟩
  · rw [hshape, List.countP_cons, countP_replicate_joined]
    simp [isInitiated]
  · intro fres o ho
    rw [hshape] at ho
    rcases List.mem_cons.mp ho with rfl | hrep
    · rfl
    · rw [List.eq_of_mem_replicate hrep]
      rfl

/-- Witness for C1: on a fresh instance, three back-to-back `get("k", loader)`
calls produce one initiation and two joins of the same fill promise. -/
theorem single_flight_coalescing_witness :
    (runGets initState "k" 3).2 =
      [GetOutcome.initiated 0, GetOutcome.joined 0, GetOutcome.joined 0] := by
  have h := single_flight_coalescing initState "k" 2 (by decide) (by decide)
  rw [h.1]
  rfl

/-- C2: for every key `k` and every loader that fails, the failure is
propagated unchanged to every caller joined to this fill episode, no entry is
stored for `k`, the pending fill for `k` is removed, and a subsequent `get`
sees a clean miss state: `get(k)` without a loader returns the absent value
and `get(k, loader2)` initiates a fresh fill (invoking `loader2`). -/
theorem loader_failure_clean_state (s : State) (k : String) (fid : Nat) (e : String)
    (t : Option Int)
    (h1 : alGet s.pendingGets k = some fid) (h2 : alHas s.cache k = false) :
    (settleFill s k (Except.error e) t).cache = s.cache
    ∧ alHas (settleFill s k (Except.error e) t).cache k = false
    ∧ alHas (settleFill s k (Except.error e) t).pendingGets k = false
    ∧ (settleFill s k (Except.error e) t).timers = s.timers
    ∧ (settleFill s k (Except.error e) t).clearTimeouts = s.clearTimeouts
    ∧ (∀ (fres : Nat → Except String Value), fres fid = Except.error e →
        ∀ o, (o = GetOutcome.joined fid ∨ o = GetOutcome.initiated fid) →
          resolveOutcome fres o = Except.error e)
    ∧ (getPhase1 (settleFill s k (Except.error e) t) k false).2 =
        GetOutcome.missNoLoader Value.vUndefined
    ∧ (getPhase1 (settleFill s k (Except.error e) t) k true).2 =
        GetOutcome.initiated s.nextFill := by
  refine ⟨rfl, h2, alHas_alDelete_self _ _, rfl, rfl, ?_, ?_, ?_⟩
  · intro fres hf o ho
    rcases ho with rfl | rfl
    · exact hf
    · exact hf
  · rw [getPhase1_missNoLoader_eq (settleFill s k (Except.error e) t) k h2]
  · rw [getPhase1_initiate_eq (settleFill s k (Except.error e) t) k h2
        (alHas_alDelete_self s.pendingGets k)]
    rfl

/-- Witness for C2: settle the in-flight fill of `pendingExample` with an
error; the pending fill is gone and the next loaderless `get` is a clean
miss returning the absent value. -/
theorem loader_failure_clean_state_witness :
    alHas (settleFill pendingExample "k" (Except.error "boom") none).pendingGets "k" = false
    ∧ (getPhase1 (settleFill pendingExample "k" (Except.error "boom") none) "k" false).2 =
        GetOutcome.missNoLoader Value.vUndefined := by
  have h := loader_failure_clean_state pendingExample "k" 0 "boom" none (by rfl) (by rfl)
  exact ⟨h.2.2.1, h.2.2.2.2.2.2.1⟩

/-- C3 counterexample: after `set("a", 1, 5)` schedules a 5-second expiration
timer, `reset()` leaves that timer scheduled — `reset` does not cancel
outstanding expiration timers, contrary to the claim. -/
theorem reset_leaves_timer_scheduled_cex :
    hasActiveTimer (resetOp (setOp initState "a" (Value.vNum 1) (some 5))) "a" = true := by
  decide

/-- C3 (amended): `reset()` deletes all stored entries, discards all pending
fills, and zeroes both counters, and is idempotent; it does NOT cancel
outstanding expiration timers (the timer table is untouched; a stale timer
later fires against the emptied store). -/
theorem reset_clears_and_idempotent (s : State) :
    (resetOp s).cache = [] ∧ (resetOp s).pendingGets = []
    ∧ (resetOp s).hits = 0 ∧ (resetOp s).misses = 0
    ∧ (resetOp s).timers = s.timers ∧ (resetOp s).clearTimeouts = s.clearTimeouts
    ∧ resetOp (resetOp s) = resetOp s :=
  ⟨rfl, rfl, rfl, rfl, rfl, rfl, rfl⟩

/-- C4 counterexample: after `set("a", 1, 5)` schedules a 5-second expiration
timer, `remove("a")` leaves that timer scheduled — `remove` does not cancel
the removed key's timer, contrary to the claim. -/
theorem remove_leaves_timer_scheduled_cex :
    hasActiveTimer (removeLit (setOp initState "a" (Value.vNum 1) (some 5)) "a") "a" = true := by
  decide

/-- C4 (amended): `remove(k)` with a literal key deletes the entry and any
pending fill for `k` and touches nothing else; `remove(p)` with a pattern
deletes the entry of every currently-stored matching key (and the pending
fill of every stored matching key), leaves every non-matching key's entry and
pending fill untouched, and is a no-op (no error) when nothing matches.
Neither form cancels expiration timers. -/
theorem remove_deletes_entry_and_pending (s : State) (k : String) (p : String → Bool) :
    alHas (removeLit s k).cache k = false
    ∧ alHas (removeLit s k).pendingGets k = false
    ∧ (∀ k2, k2 ≠ k → alGet (removeLit s k).cache k2 = alGet s.cache k2)
    ∧ (∀ k2, k2 ≠ k → alGet (removeLit s k).pendingGets k2 = alGet s.pendingGets k2)
    ∧ (removeLit s k).timers = s.timers
    ∧ (removeLit s k).clearTimeouts = s.clearTimeouts
    ∧ (∀ k2, p k2 = true → alHas (removePat s p).cache k2 = false)
    ∧ (∀ k2, p k2 = true → alHas s.cache k2 = true →
        alHas (removePat s p).pendingGets k2 = false)
    ∧ (∀ k2, p k2 = false → alGet (removePat s p).cache k2 = alGet s.cache k2
        ∧ alGet (removePat s p).pendingGets k2 = alGet s.pendingGets k2)
    ∧ (removePat s p).timers = s.timers
    ∧ (removePat s p).clearTimeouts = s.clearTimeouts
    ∧ ((∀ kv ∈ s.cache, p kv.1 = false) →
        (removePat s p).cache = s.cache ∧ (removePat s p).pendingGets = s.pendingGets) := by
  refine ⟨alHas_alDelete_self _ _, alHas_alDelete_self _ _,
    fun k2 hne => alGet_alDelete_ne _ _ _ hne,
    fun k2 hne => alGet_alDelete_ne _ _ _ hne,
    rfl, rfl, ?_, ?_, ?_, rfl, rfl, ?_⟩
  · intro k2 hp
    exact alHas_filter_drop _ _ _ (fun v => by simp [hp])
  · intro k2 hp hhas
    exact alHas_filter_drop _ _ _ (fun v => by simp [hp, hhas])
  · intro k2 hp
    constructor
    · exact alGet_filter_keep _ _ _ (fun v => by simp [hp])
    · exact alGet_filter_keep _ _ _ (fun v => by simp [hp])
  · intro hno
    constructor
    · exact List.filter_eq_self.mpr (fun kv hmem => by simp [hno kv hmem])
    · refine List.filter_eq_self.mpr (fun kv hmem => ?_)
      rcases hhas : alHas s.cache kv.1 with _ | _
      · simp
      · have hmem2 := hhas
        unfold alHas at hmem2
        rw [List.any_eq_true] at hmem2
        obtain ⟨kv2, hmem2c, hbeq⟩ := hmem2
        have hpk : p kv2.1 = false := hno kv2 hmem2c
        rw [beq_iff_eq] at hbeq
        rw [hbeq] at hpk
        simp [hpk]

/-- Witness for C4: removing "user:1" deletes exactly that entry; removing by
a pattern matching only "user:1" leaves the non-matching "config" entry in
place. -/
theorem remove_deletes_entry_and_pending_witness :
    alHas (removeLit demoPatState "user:1").cache "user:1" = false
    ∧ alGet (removePat demoPatState (fun s2 => s2 == "user:1")).cache "config" =
        alGet demoPatState.cache "config" := by
  have h := remove_deletes_entry_and_pending demoPatState "user:1"
    (fun s2 => s2 == "user:1")
  exact ⟨h.1, (h.2.2.2.2.2.2.2.2.1 "config" (by decide)).1⟩

/-- C5 counterexample: storing a BigInt value (whose `JSON.stringify` throws)
makes `report()` raise instead of substituting a "no data" representation —
`report()` is not exception-free, contrary to the claim. -/
theorem report_raises_on_bigint_cex :
    reportOp (setOp initState "k" (Value.vBigInt 1) none) = Except.error () := rfl

/-- C5 (amended): whenever every stored value's serialization does not throw,
`report()` returns a `sizeKb` equal to the sum over all stored entries of the
byte length of the key plus the byte length of the value's serialized textual
representation (values serializing to no string, such as `undefined`,
contribute the 9-byte text "undefined"), divided by 1024 and rounded to the
nearest whole kilobyte; but a stored value whose serialization throws (e.g. a
BigInt) makes `report()` propagate the exception. -/
theorem report_size_estimate (s : State)
    (h : (s.cache.all fun kv => (jsonStringifyE kv.2).isOk) = true) :
    reportOp s = Except.ok
      { numItems := s.cache.length,
        hitRate := hitRateOf s.hits s.misses,
        sizeKb := (specSizeBytes s.cache + 512) / 1024 } := by
  unfold reportOp getSizeKbE
  rw [sizeSum_ok s.cache h]

/-- Witness for C5's amended theorem: a two-entry cache (a one-char string
value and an `undefined` value) reports 15 total bytes, i.e. 0 KB. -/
theorem report_size_estimate_witness :
    reportOp demoSizeState = Except.ok
      { numItems := 2, hitRate := hitRateOf 0 0, sizeKb := 0 } := by
  have h := report_size_estimate demoSizeState (by decide)
  rw [h]
  rfl

/-- C6: `set(k, v, t)` stores `v` and cancels any pre-existing expiration
timer for `k` regardless of the new lifetime: afterwards the still-scheduled
timers for `k` are exactly one fresh timer of `t*1000` milliseconds when `t`
is a positive number, and none when `t` is zero, negative, or omitted.  In
particular no stale timer (any timer other than the newly allocated one) can
delete the freshly-set value: firing it leaves the entry for `k` stored. -/
theorem set_timer_replacement (s : State) (k : String) (v : Value) (t : Option Int)
    (hinv : timerInvB s = true) :
    alGet (setOp s k v t).cache k = some v
    ∧ activeTimersFor (setOp s k v t) k =
        (if posLifetime t then [(s.nextTimer, ⟨k, (t.getD 0) * 1000, true⟩)] else [])
    ∧ (∀ tid, tid ≠ s.nextTimer →
        alGet (timerFire (setOp s k v t) tid).cache k = some v) := by
  refine ⟨?_, setOp_activeTimersFor s k v t hinv, ?_⟩
  · rw [setOp_cache]
    exact alGet_alSet_self _ _ _
  · intro tid htid
    rcases hfind : (setOp s k v t).timers.find? (fun q => q.1 == tid && q.2.active)
      with _ | q
    · rw [timerFire_of_find_none _ _ hfind, setOp_cache]
      exact alGet_alSet_self _ _ _
    · rw [timerFire_cache_of_find_some _ _ _ hfind]
      have hqmem := List.mem_of_find?_eq_some hfind
      have hqp := List.find?_some hfind
      simp only [Bool.and_eq_true, beq_iff_eq] at hqp
      by_cases hkey : q.2.key = k
      · exfalso
        have hmem2 : q ∈ activeTimersFor (setOp s k v t) k :=
          mem_activeTimersFor _ _ _ hqmem hqp.2 hkey
        rw [setOp_activeTimersFor s k v t hinv] at hmem2
        by_cases hp : posLifetime t
        · rw [if_pos hp, List.mem_singleton] at hmem2
          apply htid
          rw [← hqp.1, hmem2]
        · rw [if_neg hp] at hmem2
          cases hmem2
      · rw [alGet_alDelete_ne _ _ _ (fun he => hkey he.symm), setOp_cache]
        exact alGet_alSet_self _ _ _

/-- Witness for C6: on a fresh instance, `set("a", 1, 5)` stores the value
and schedules exactly one 5000 ms timer for "a". -/
theorem set_timer_replacement_witness :
    alGet (setOp initState "a" (Value.vNum 1) (some 5)).cache "a" = some (Value.vNum 1)
    ∧ activeTimersFor (setOp initState "a" (Value.vNum 1) (some 5)) "a" =
        [(0, ⟨"a", 5000, true⟩)] := by
  have h := set_timer_replacement initState "a" (Value.vNum 1) (some 5) (by decide)
  refine ⟨h.1, ?_⟩
  rw [h.2.1]
  rfl

/-- C7: when `k` has a stored entry, `get(k, loader?, t?)` returns that
stored value and increments only the hit counter, and the outcome is a hit
(no loader invocation) even when a loader is supplied; when `k` has no
stored entry, `get` increments the miss counter, and with no loader supplied
it returns the absent-value sentinel (`undefined`). -/
theorem get_hit_and_miss (s : State) (k : String) (b : Bool) :
    (∀ v, alGet s.cache k = some v →
        getPhase1 s k b = ({ s with hits := s.hits + 1 }, GetOutcome.hit v))
    ∧ (alHas s.cache k = false →
        (getPhase1 s k b).1.misses = s.misses + 1
        ∧ (getPhase1 s k false).2 = GetOutcome.missNoLoader Value.vUndefined
        ∧ ∀ fres : Nat → Except String Value,
            resolveOutcome fres (getPhase1 s k false).2 = Except.ok Value.vUndefined) := by
  constructor
  · intro v hv
    exact getPhase1_hit_eq s k b v hv
  · intro h1
    refine ⟨?_, ?_, ?_⟩
    · cases b with
      | false => rw [getPhase1_missNoLoader_eq s k h1]
      | true =>
        rcases hpg : alGet s.pendingGets k with _ | fid
        · rw [getPhase1_initiate_eq s k h1 (alHas_false_of_alGet_none _ _ hpg)]
        · rw [getPhase1_join_eq s k fid h1 hpg]
    · rw [getPhase1_missNoLoader_eq s k h1]
    · intro fres
      rw [getPhase1_missNoLoader_eq s k h1]
      rfl

/-- Witness for C7: with "a" stored, `get("a", loader)` is a hit returning
the stored 7 without initiating a fill; on the absent key "zz" a loaderless
`get` returns the absent value. -/
theorem get_hit_and_miss_witness :
    getPhase1 demoHitState "a" true =
      ({ demoHitState with hits := demoHitState.hits + 1 }, GetOutcome.hit (Value.vNum 7))
    ∧ (getPhase1 demoHitState "zz" false).2 = GetOutcome.missNoLoader Value.vUndefined := by
  refine ⟨(get_hit_and_miss demoHitState "a" true).1 (Value.vNum 7) (by rfl), ?_⟩
  exact ((get_hit_and_miss demoHitState "zz" false).2 (by decide)).2.1

/-- C8: the `hitRate` returned by `report()` equals
`hits / (hits + misses) * 100` rounded to two decimal places when
`hits + misses > 0`, and exactly 0 when no requests have been made
(`report` reads the counters without modifying any state). -/
theorem report_hit_rate_formula (s : State) (r : Report)
    (h : reportOp s = Except.ok r) :
    r.hitRate = specHitRate s.hits s.misses := by
  unfold reportOp at h
  rcases hsz : getSizeKbE s with e | sz
  · rw [hsz] at h
    cases h
  · rw [hsz] at h
    injection h with h2
    rw [← h2]
    exact hitRateOf_eq_spec s.hits s.misses

/-- Witness for C8: with one hit and two misses recorded, the reported hit
rate is the two-decimal rounding of 100/3. -/
theorem report_hit_rate_formula_witness :
    (Report.mk 0 (hitRateOf 1 2) 0).hitRate = specHitRate 1 2 :=
  report_hit_rate_formula demoCounterState (Report.mk 0 (hitRateOf 1 2) 0) rfl

/-- C9: after `set(k, undefined)` on a key not previously stored, a
subsequent `get(k)` is a hit: it increments the hit counter (set and the hit
leave the miss counter alone), invokes no supplied loader, and returns
`undefined` — a return value indistinguishable from a miss on an absent key;
the entry still counts toward `report().numItems`. -/
theorem set_undefined_get_is_hit (s : State) (k : String) (b : Bool) (t : Option Int)
    (h : alHas s.cache k = false) :
    getPhase1 (setOp s k Value.vUndefined t) k b =
      ({ setOp s k Value.vUndefined t with
          hits := (setOp s k Value.vUndefined t).hits + 1 },
       GetOutcome.hit Value.vUndefined)
    ∧ (setOp s k Value.vUndefined t).hits = s.hits
    ∧ (setOp s k Value.vUndefined t).misses = s.misses
    ∧ (∀ fres : Nat → Except String Value,
        resolveOutcome fres (GetOutcome.hit Value.vUndefined) =
          resolveOutcome fres (GetOutcome.missNoLoader Value.vUndefined))
    ∧ (setOp s k Value.vUndefined t).cache.length = s.cache.length + 1
    ∧ (∀ r, reportOp (setOp s k Value.vUndefined t) = Except.ok r →
        r.numItems = s.cache.length + 1) := by
  have hget : alGet (setOp s k Value.vUndefined t).cache k = some Value.vUndefined := by
    rw [setOp_cache]
    exact alGet_alSet_self _ _ _
  have hlen : (setOp s k Value.vUndefined t).cache.length = s.cache.length + 1 := by
    rw [setOp_cache]
    exact alSet_length_of_not_has _ _ _ h
  refine ⟨getPhase1_hit_eq _ _ _ _ hget, setOp_hits _ _ _ _, setOp_misses _ _ _ _,
    fun _ => rfl, hlen, ?_⟩
  intro r hr
  unfold reportOp at hr
  rcases hsz : getSizeKbE (setOp s k Value.vUndefined t) with e | sz
  · rw [hsz] at hr
    cases hr
  · rw [hsz] at hr
    injection hr with h2
    rw [← h2]
    exact hlen

/-- Witness for C9: `set("a", undefined)` on a fresh instance, then
`get("a", loader)`, is a hit returning `undefined` and the store holds one
item. -/
theorem set_undefined_get_is_hit_witness :
    getPhase1 (setOp initState "a" Value.vUndefined none) "a" true =
      ({ setOp initState "a" Value.vUndefined none with
          hits := (setOp initState "a" Value.vUndefined none).hits + 1 },
       GetOutcome.hit Value.vUndefined)
    ∧ (setOp initState "a" Value.vUndefined none).cache.length =
        initState.cache.length + 1 := by
  have h := set_undefined_get_is_hit initState "a" true none (by decide)
  exact ⟨h.1, h.2.2.2.2.1⟩

/-- C10: a `get` on a stored key changes nothing but the hit counter: the
entry store, the timer table, the `clearTimeouts` handles, the pending-fill
table, the id counters and the miss counter are all left untouched — in
particular a hit never refreshes, extends, or cancels the key's expiration
timer. -/
theorem get_hit_frame (s : State) (k : String) (b : Bool)
    (h : alHas s.cache k = true) :
    (getPhase1 s k b).1.cache = s.cache
    ∧ (getPhase1 s k b).1.clearTimeouts = s.clearTimeouts
    ∧ (getPhase1 s k b).1.timers = s.timers
    ∧ (getPhase1 s k b).1.pendingGets = s.pendingGets
    ∧ (getPhase1 s k b).1.nextTimer = s.nextTimer
    ∧ (getPhase1 s k b).1.nextFill = s.nextFill
    ∧ (getPhase1 s k b).1.misses = s.misses
    ∧ (getPhase1 s k b).1.hits = s.hits + 1 := by
  unfold getPhase1
  rw [if_pos h]
  exact ⟨rfl, rfl, rfl, rfl, rfl, rfl, rfl, rfl⟩

/-- Witness for C10: a hit on the stored key "a" leaves the timer table and
store of `demoHitState` unchanged and bumps only the hit counter. -/
theorem get_hit_frame_witness :
    (getPhase1 demoHitState "a" false).1.timers = demoHitState.timers
    ∧ (getPhase1 demoHitState "a" false).1.cache = demoHitState.cache
    ∧ (getPhase1 demoHitState "a" false).1.hits = demoHitState.hits + 1 := by
  have h := get_hit_frame demoHitState "a" false (by decide)
  exact ⟨h.2.2.1, h.1, h.2.2.2.2.2.2.2⟩

end Ltcache
